import Mathlib

/-!
Verification development for the mudpatch patch-merging tool.

The definitions below are a shallow embedding of `src/mudpatch/git_operations.py`
and `src/mudpatch/patches.py`.  A git repository is modelled as explicit data:
the list of local heads (branches), local tags, configured remotes with their
advertised references, plus two pieces of working-tree state that the merge
orchestrator manipulates (which branch is checked out, and whether a conflicted
merge is in progress).  Commit identifiers are opaque naturals.

Fallible Python functions are modelled with `Option`/`Except`: a raised
exception becomes an `Except.error` (carrying the message built exactly as the
source f-string builds it), and an uncaught low-level exception (such as the
`IndexError` from `repo.heads[0]` on a repository with no branches) becomes
`none`.  Functions that mutate the repository (branch creation) return the new
repository state explicitly.

The two failure channels that `merge_patches_into_output` handles explicitly —
checkout of the output branch and each `git merge` call — are modelled by
boolean oracles (`checkoutOk`, `mergeOk`), since their outcomes depend on
working-tree contents outside the model.  The cleanup's `git merge --abort`
and the checkout of the fallback branch after a successful abort are modelled
as succeeding state updates, matching git's nominal behaviour on a tree the
abort has just cleaned; the forced delete `git branch -D` fails — git refuses
to delete the currently checked-out branch — exactly when the computed
fallback is the output branch itself, and the `GitCommandError` that then
propagates uncaught out of the source function is modelled as `none`.
-/

/-- A local branch (git `Head`).  `tracking` records the remote reference a
branch created by `get_remote_ref` tracks (`set_tracking_branch`). -/
structure Head where
  name : String
  commit : Nat
  tracking : Option String
deriving DecidableEq, Repr

/-- A local tag (git `TagReference`). -/
structure TagReference where
  name : String
  commit : Nat
deriving DecidableEq, Repr

/-- A reference advertised by a remote (git `RemoteReference`).  `name` is the
full path form, e.g. `origin/feature-x`. -/
structure RemoteReference where
  name : String
  commit : Nat
deriving DecidableEq, Repr

/-- A configured remote repository together with its advertised references. -/
structure Remote where
  name : String
  refs : List RemoteReference
deriving DecidableEq, Repr

/-- The repository model: the data `git_operations.py` reads (`repo.heads`,
`repo.tags`, `repo.remotes`, `repo.working_dir`) plus the working-tree state
the merge orchestrator manipulates. -/
structure Repo where
  heads : List Head
  tags : List TagReference
  remotes : List Remote
  working_dir : String
  checked_out : Option String
  merging : Bool
deriving DecidableEq, Repr

/-- A patch record (`mudpatch/patches.py`, dataclass `Patch`). -/
structure Patch where
  title : String
  description : String
  upstream_pr : String
  downstream_branch : String
  fixed_version : String
deriving DecidableEq, Repr

/-- The error taxonomy of `mudpatch/errors.py`, each constructor carrying the
message the source builds for it. -/
inductive MudPatchError where
  | unknownReference (msg : String)
  | unknownBranch (msg : String)
  | multipleRemoteReferences (msg : String)
  | branchExists (msg : String)
deriving DecidableEq, Repr

/-- Embedding of `get_local_head`: linear scan of `repo.heads` for the first
head with the given name. -/
def get_local_head (repo : Repo) (head_name : String) : Option Head :=
  repo.heads.find? (fun head => head.name == head_name)

/-- The default `fallback_options` argument of `get_fallback_head`. -/
def default_fallback_options : List String := ["main", "master", "trunk"]

/-- Embedding of `get_fallback_head`: first name in `fallback_options` that is
a local head, else the first head in `repo.heads`.  `none` models the
`IndexError` that `repo.heads[0]` raises on a repository with no branches. -/
def get_fallback_head (repo : Repo) (fallback_options : List String) : Option Head :=
  match fallback_options.findSome? (fun fallback => get_local_head repo fallback) with
  | some fallback_head => some fallback_head
  | none => repo.heads.head?

/-- Embedding of `get_tag`: linear scan of `repo.tags`. -/
def get_tag (repo : Repo) (tag_name : String) : Option TagReference :=
  repo.tags.find? (fun tag => tag.name == tag_name)

/-- The `Union[Head, TagReference]` return type of `get_local_base_object`. -/
inductive BaseObject where
  | branch (head : Head)
  | tag (tagRef : TagReference)
deriving DecidableEq, Repr

/-- The `commit` attribute shared by both reference kinds. -/
def BaseObject.commit : BaseObject → Nat
  | .branch head => head.commit
  | .tag tagRef => tagRef.commit

/-- The `UnknownReferenceError` message built by `get_local_base_object`. -/
def base_reference_message (repo : Repo) (base : String) : String :=
  "The base reference " ++ base ++ " is not present as a branch or tag in the "
    ++ repo.working_dir ++ " repository"

/-- Embedding of `get_local_base_object`: branch lookup first, then tag lookup,
else `UnknownReferenceError`. -/
def get_local_base_object (repo : Repo) (base : String) : Except MudPatchError BaseObject :=
  match get_local_head repo base with
  | some base_branch => .ok (.branch base_branch)
  | none =>
    match get_tag repo base with
    | some base_tag => .ok (.tag base_tag)
    | none => .error (.unknownReference (base_reference_message repo base))

/-- Python `name.split("/")[-1]`: the last slash-separated component, i.e. the
suffix of the string after its last `/` (the whole string when it has no `/`,
the empty string when it ends in `/`). -/
def split_last (name : String) : String :=
  String.mk ((name.data.reverse.takeWhile (fun c => c != '/')).reverse)

/-- The short-name test `remote_ref.name.split("/")[-1] == ref_name` used by
`get_remote_ref`. -/
def refMatches (ref_name : String) (remote_ref : RemoteReference) : Bool :=
  split_last remote_ref.name == ref_name

/-- The accumulation of matching references over all remotes performed by the
nested loop in `get_remote_ref` when no specific remote is requested. -/
def remoteRefsMatching (remotes : List Remote) (ref_name : String) : List RemoteReference :=
  match remotes with
  | [] => []
  | remote_repo :: rest =>
    remote_repo.refs.filter (refMatches ref_name) ++ remoteRefsMatching rest ref_name

/-- The `MultipleRemoteReferences` message built by `get_remote_ref` (the
source interpolates the list of found references; we render their names). -/
def multiple_remote_references_message (ref_name : String)
    (found_refs : List RemoteReference) : String :=
  "Found multiple references to " ++ ref_name
    ++ " in the configured remote repositories: "
    ++ String.intercalate ", " (found_refs.map (fun r => r.name))

/-- The local tracking branch `get_remote_ref` materializes on a match:
`repo.create_head(ref_name, found_ref)` followed by
`set_tracking_branch(found_ref)`. -/
def create_tracking_head (ref_name : String) (found_ref : RemoteReference) : Head :=
  { name := ref_name, commit := found_ref.commit, tracking := some found_ref.name }

/-- Embedding of `get_remote_ref`.  Returns the (optional) created head
together with the updated repository (the tracking branch is appended to
`repo.heads`).  An empty-string remote name is falsy in Python (`if remote:`),
so it selects the search-all-remotes path, exactly as `remote=None` does. -/
def get_remote_ref (repo : Repo) (ref_name : String) (remote : Option String) :
    Except MudPatchError (Option Head × Repo) :=
  if repo.remotes.isEmpty then
    .ok (none, repo)
  else
    let search_all : Except MudPatchError (Option RemoteReference) :=
      let found_refs := remoteRefsMatching repo.remotes ref_name
      if found_refs.length > 1 then
        .error (.multipleRemoteReferences
          (multiple_remote_references_message ref_name found_refs))
      else
        match found_refs with
        | [] => .ok none
        | fr :: _ => .ok (some fr)
    let found_ref : Except MudPatchError (Option RemoteReference) :=
      match remote with
      | some rem =>
        if rem == "" then search_all
        else
          .ok (match repo.remotes.find? (fun remote_repo => remote_repo.name == rem) with
               | none => none
               | some remote_repo =>
                 remote_repo.refs.find? (fun remote_ref => refMatches ref_name remote_ref))
      | none => search_all
    match found_ref with
    | .error e => .error e
    | .ok none => .ok (none, repo)
    | .ok (some fr) =>
      .ok (some (create_tracking_head ref_name fr),
           { repo with heads := repo.heads ++ [create_tracking_head ref_name fr] })

/-- The `BranchExistsError` message built by `create_output_branch`. -/
def branch_exists_message (output : String) : String :=
  "The output branch " ++ output ++ " is already present in the target "
    ++ "repository. Either remove this branch or choose a new output name."

/-- Embedding of `create_output_branch`: resolve the base reference first,
then check the output name for collision, then `repo.create_head(output,
commit=base_object.commit)`. -/
def create_output_branch (repo : Repo) (base : String) (output : String) :
    Except MudPatchError (Head × Repo) :=
  match get_local_base_object repo base with
  | .error e => .error e
  | .ok base_object =>
    match get_local_head repo output with
    | some _ => .error (.branchExists (branch_exists_message output))
    | none =>
      let new_head : Head := { name := output, commit := base_object.commit, tracking := none }
      .ok (new_head, { repo with heads := repo.heads ++ [new_head] })

/-- The `UnknownBranchError` message built by `get_patch_branches`: it names
both the downstream branch and the patch title. -/
def unknown_branch_message (patch : Patch) : String :=
  "Branch " ++ patch.downstream_branch ++ " for patch " ++ patch.title
    ++ " does not exist"

/-- Embedding of `get_patch_branches`.  Errors carry the repository state at
raise time, because `get_remote_ref` may already have materialized tracking
branches for earlier patches. -/
def get_patch_branches : Repo → List Patch →
    Except (MudPatchError × Repo) (List (Patch × Head) × Repo)
  | repo, [] => .ok ([], repo)
  | repo, patch :: rest =>
    match get_local_head repo patch.downstream_branch with
    | some patch_branch =>
      match get_patch_branches repo rest with
      | .error er => .error er
      | .ok (pairs, repo') => .ok ((patch, patch_branch) :: pairs, repo')
    | none =>
      match get_remote_ref repo patch.downstream_branch none with
      | .error e => .error (e, repo)
      | .ok (none, _) => .error (.unknownBranch (unknown_branch_message patch), repo)
      | .ok (some patch_branch, repo1) =>
        match get_patch_branches repo1 rest with
        | .error er => .error er
        | .ok (pairs, repo') => .ok ((patch, patch_branch) :: pairs, repo')

/-- The merge loop of `merge_patches_into_output`, with the patch index
threaded for the `mergeOk` oracle and the list of attempted merges (names of
patch branches a `git merge` was issued for) accumulated.  `none` models the
exceptions that escape the cleanup path uncaught: the `IndexError` from
`get_fallback_head` on a branchless repository, and the `GitCommandError` from
`git branch -D` when the branch to delete is the fallback branch just checked
out — git refuses to delete the current branch — which happens exactly when
the computed fallback is the output branch. -/
def merge_loop (mergeOk : Nat → Bool) (clean_up : Bool) (output_branch : Head) :
    Repo → Nat → List (Patch × Head) → List String → Option (Bool × Repo × List String)
  | repo, _, [], attempted => some (true, repo, attempted)
  | repo, idx, (_, patch_branch) :: rest, attempted =>
    if mergeOk idx then
      merge_loop mergeOk clean_up output_branch repo (idx + 1) rest
        (attempted ++ [patch_branch.name])
    else
      let conflicted : Repo := { repo with merging := true }
      if clean_up then
        let aborted : Repo := { conflicted with merging := false }
        match get_fallback_head aborted default_fallback_options with
        | none => none
        | some fallback_head =>
          let switched : Repo := { aborted with checked_out := some fallback_head.name }
          if fallback_head.name == output_branch.name then
            none
          else
            some (false,
              { switched with
                  heads := switched.heads.filter (fun h => h.name != output_branch.name) },
              attempted ++ [patch_branch.name])
      else
        some (false, conflicted, attempted ++ [patch_branch.name])

/-- Embedding of `merge_patches_into_output`.  `checkoutOk` is the oracle for
`checkout_branch` on the output branch (a failed checkout is caught and the
function returns `False` with the repository untouched). -/
def merge_patches_into_output (checkoutOk : String → Bool) (mergeOk : Nat → Bool)
    (repo : Repo) (output_branch : Head) (patch_branches : List (Patch × Head))
    (clean_up : Bool) : Option (Bool × Repo × List String) :=
  if checkoutOk output_branch.name then
    merge_loop mergeOk clean_up output_branch
      { repo with checked_out := some output_branch.name } 0 patch_branches []
  else
    some (false, repo, [])

/-- The resolution-and-creation phase of `merge_init` (`commands.py`): locate
all patch branches, then create the output branch; merging starts only after
both succeed.  Errors carry the repository state at raise time. -/
def merge_init_resolution_phase (repo : Repo) (patches : List Patch)
    (base : String) (output : String) :
    Except (MudPatchError × Repo) (List (Patch × Head) × Head × Repo) :=
  match get_patch_branches repo patches with
  | .error er => .error er
  | .ok (patch_branches, repo1) =>
    match create_output_branch repo1 base output with
    | .error e => .error (e, repo1)
    | .ok (output_branch, repo2) => .ok (patch_branches, output_branch, repo2)

/-- A patch record in configuration form: an insertion-ordered association
list, modelling the Python `dict` that `from_patch_to_dict` builds and
PyYAML serializes with `sort_keys=False`. -/
abbrev PatchDict := List (String × String)

/-- Python `dict[key]` lookup on the insertion-ordered association list
(`none` models `KeyError`). -/
def dictGet (patch_dict : PatchDict) (key : String) : Option String :=
  (patch_dict.find? (fun kv => kv.1 == key)).map (fun kv => kv.2)

/-- Embedding of `from_dict_to_patch`. -/
def from_dict_to_patch (patch_dict : PatchDict) : Option Patch := do
  let title ← dictGet patch_dict "title"
  let description ← dictGet patch_dict "description"
  let upstream_pr ← dictGet patch_dict "upstreamPR"
  let downstream_branch ← dictGet patch_dict "downstreamBranch"
  let fixed_version ← dictGet patch_dict "fixedVersion"
  some { title := title, description := description, upstream_pr := upstream_pr,
         downstream_branch := downstream_branch, fixed_version := fixed_version }

/-- Embedding of `from_patch_to_dict`: keys inserted in the order title,
description, upstreamPR, downstreamBranch, fixedVersion. -/
def from_patch_to_dict (patch : Patch) : PatchDict :=
  [("title", patch.title), ("description", patch.description),
   ("upstreamPR", patch.upstream_pr), ("downstreamBranch", patch.downstream_branch),
   ("fixedVersion", patch.fixed_version)]

/-- Embedding of `write_patches_to_file` at the record level: the YAML file
layer is the out-of-scope PyYAML collaborator, so serialization is modelled as
the list of ordered records it is handed (`sort_keys=False` preserves their
key order). -/
def write_patches_to_file (patches : List Patch) : List PatchDict :=
  patches.map from_patch_to_dict

/-- Embedding of `get_patches` at the record level: the parsed YAML document is
the list of records, each converted by `from_dict_to_patch`. -/
def get_patches (patches_yaml : List PatchDict) : Option (List Patch) :=
  patches_yaml.mapM from_dict_to_patch


/-! ## Concrete repositories and patches used for evaluation -/

def head_main : Head := { name := "main", commit := 0, tracking := none }

def head_out : Head := { name := "out", commit := 1, tracking := none }

def head_b1 : Head := { name := "b1", commit := 2, tracking := none }

def head_dual : Head := { name := "dual", commit := 3, tracking := none }

def tag_dual : TagReference := { name := "dual", commit := 9 }

def remote_r1 : Remote := { name := "r1", refs := [{ name := "r1/dup", commit := 5 }] }

def remote_r2 : Remote := { name := "r2", refs := [{ name := "r2/dup", commit := 6 }] }

def remote_origin : Remote :=
  { name := "origin", refs := [{ name := "origin/p1", commit := 7 }] }

def repo_basic : Repo :=
  { heads := [head_main, head_out, head_b1], tags := [], remotes := [],
    working_dir := "/repo", checked_out := some "main", merging := false }

def repo_no_branches : Repo :=
  { heads := [], tags := [], remotes := [], working_dir := "/repo",
    checked_out := none, merging := false }

def repo_main_only : Repo :=
  { heads := [head_main], tags := [], remotes := [], working_dir := "/repo",
    checked_out := some "main", merging := false }

def repo_branch_and_tag : Repo :=
  { heads := [head_dual], tags := [tag_dual], remotes := [],
    working_dir := "/repo", checked_out := none, merging := false }

def repo_two_remotes : Repo :=
  { heads := [head_main], tags := [], remotes := [remote_r1, remote_r2],
    working_dir := "/repo", checked_out := some "main", merging := false }

def repo_with_origin : Repo :=
  { heads := [head_main], tags := [], remotes := [remote_origin],
    working_dir := "/repo", checked_out := some "main", merging := false }

def patch_b1 : Patch :=
  { title := "P1", description := "d", upstream_pr := "u",
    downstream_branch := "b1", fixed_version := "v" }

def patch_p1 : Patch :=
  { title := "T1", description := "d", upstream_pr := "u",
    downstream_branch := "p1", fixed_version := "v" }

def patch_ambiguous : Patch :=
  { title := "AMB", description := "d", upstream_pr := "u",
    downstream_branch := "dup", fixed_version := "v" }

def patch_unresolvable : Patch :=
  { title := "MISSING", description := "d", upstream_pr := "u",
    downstream_branch := "nope", fixed_version := "v" }

/-! ## Helper lemmas -/

lemma from_dict_to_patch_from_patch (patch : Patch) :
    from_dict_to_patch (from_patch_to_dict patch) = some patch := rfl

lemma get_local_head_eq_none_iff (repo : Repo) (head_name : String) :
    get_local_head repo head_name = none ↔ ∀ h ∈ repo.heads, h.name ≠ head_name := by
  unfold get_local_head
  rw [List.find?_eq_none]
  simp

lemma get_tag_eq_none_iff (repo : Repo) (tag_name : String) :
    get_tag repo tag_name = none ↔ ∀ t ∈ repo.tags, t.name ≠ tag_name := by
  unfold get_tag
  rw [List.find?_eq_none]
  simp

/-! ## Claim theorems -/

/-- C8: serializing a list of Patch records to configuration form and reloading
it yields a field-for-field identical list in identical order, and each
serialized record's key order is title, description, upstreamPR,
downstreamBranch, fixedVersion. -/
theorem patch_config_round_trip (patches : List Patch) :
    get_patches (write_patches_to_file patches) = some patches ∧
    ∀ d ∈ write_patches_to_file patches,
      d.map Prod.fst =
        ["title", "description", "upstreamPR", "downstreamBranch", "fixedVersion"] := by
  constructor
  · induction patches with
    | nil => rfl
    | cons p ps ih =>
      simp only [write_patches_to_file, List.map_cons, get_patches, List.mapM_cons,
        from_dict_to_patch_from_patch, Option.bind_eq_bind, Option.some_bind] at ih ⊢
      rw [ih]
      rfl
  · intro d hd
    simp only [write_patches_to_file, List.mem_map] at hd
    obtain ⟨p, _, rfl⟩ := hd
    rfl

/-- C5: local base resolution returns the branch whenever the name is a local
branch (so a name present as both a branch and a tag resolves to the branch,
never the tag), and it raises UnknownReferenceError exactly when the name is
neither a local branch nor a local tag. -/
theorem get_local_base_object_branch_precedence (repo : Repo) (base : String) :
    (∀ h, get_local_head repo base = some h →
      get_local_base_object repo base = .ok (.branch h)) ∧
    ((∃ msg, get_local_base_object repo base = .error (.unknownReference msg)) ↔
      ((∀ h ∈ repo.heads, h.name ≠ base) ∧ (∀ t ∈ repo.tags, t.name ≠ base))) := by
  constructor
  · intro h hh
    simp [get_local_base_object, hh]
  · cases hh : get_local_head repo base with
    | some h =>
      simp only [get_local_base_object, hh]
      constructor
      · rintro ⟨msg, hmsg⟩
        cases hmsg
      · rintro ⟨hb, -⟩
        have hmem := List.mem_of_find?_eq_some hh
        have hpred := List.find?_some hh
        exact absurd (by simpa using hpred) (hb h hmem)
    | none =>
      cases ht : get_tag repo base with
      | some t =>
        simp only [get_local_base_object, hh, ht]
        constructor
        · rintro ⟨msg, hmsg⟩
          cases hmsg
        · rintro ⟨-, htag⟩
          have hmem := List.mem_of_find?_eq_some ht
          have hpred := List.find?_some ht
          exact absurd (by simpa using hpred) (htag t hmem)
      | none =>
        simp only [get_local_base_object, hh, ht]
        constructor
        · intro _
          exact ⟨(get_local_head_eq_none_iff repo base).mp hh,
                 (get_tag_eq_none_iff repo base).mp ht⟩
        · intro _
          exact ⟨base_reference_message repo base, rfl⟩

/-- C10: create_output_branch resolves the base reference before checking the
output name for collision: when the base is neither a local branch nor a local
tag and the output name already names a local branch, the error is
UnknownReferenceError, not BranchExistsError. -/
theorem create_output_branch_resolves_base_first (repo : Repo) (base output : String)
    (hbranch : get_local_head repo base = none)
    (htag : get_tag repo base = none)
    (_hout : (get_local_head repo output).isSome) :
    create_output_branch repo base output =
      .error (.unknownReference (base_reference_message repo base)) := by
  simp [create_output_branch, get_local_base_object, hbranch, htag]

/-- C7 amended: on every repository with at least one local branch, the
fallback lookup succeeds and returns the branch named main if one exists, else
master, else trunk, and if none of those exist the first branch in the
repository's branch list. -/
theorem get_fallback_head_priority (repo : Repo) (hne : repo.heads ≠ []) :
    ∃ fb, get_fallback_head repo default_fallback_options = some fb ∧
      (∀ h, get_local_head repo "main" = some h → fb = h) ∧
      (get_local_head repo "main" = none →
        ∀ h, get_local_head repo "master" = some h → fb = h) ∧
      (get_local_head repo "main" = none → get_local_head repo "master" = none →
        ∀ h, get_local_head repo "trunk" = some h → fb = h) ∧
      (get_local_head repo "main" = none → get_local_head repo "master" = none →
        get_local_head repo "trunk" = none → repo.heads.head? = some fb) := by
  cases hm : get_local_head repo "main" with
  | some h =>
    refine ⟨h, ?_, ?_, ?_, ?_, ?_⟩
    · simp [get_fallback_head, default_fallback_options, List.findSome?_cons, hm]
    · intro h' hh'
      exact Option.some.inj hh'
    · intro hnone
      exact Option.noConfusion hnone
    · intro hnone
      exact Option.noConfusion hnone
    · intro hnone
      exact Option.noConfusion hnone
  | none =>
    cases hma : get_local_head repo "master" with
    | some h =>
      refine ⟨h, ?_, ?_, ?_, ?_, ?_⟩
      · simp [get_fallback_head, default_fallback_options, List.findSome?_cons, hm, hma]
      · intro h' hh'
        exact Option.noConfusion hh'
      · intro _ h' hh'
        exact Option.some.inj hh'
      · intro _ hnone
        exact Option.noConfusion hnone
      · intro _ hnone
        exact Option.noConfusion hnone
    | none =>
      cases htr : get_local_head repo "trunk" with
      | some h =>
        refine ⟨h, ?_, ?_, ?_, ?_, ?_⟩
        · simp [get_fallback_head, default_fallback_options, List.findSome?_cons, hm, hma, htr]
        · intro h' hh'
          exact Option.noConfusion hh'
        · intro _ h' hh'
          exact Option.noConfusion hh'
        · intro _ _ h' hh'
          exact Option.some.inj hh'
        · intro _ _ hnone
          exact Option.noConfusion hnone
      | none =>
        cases hh : repo.heads with
        | nil => exact absurd hh hne
        | cons a l =>
          refine ⟨a, ?_, ?_, ?_, ?_, ?_⟩
          · simp [get_fallback_head, default_fallback_options, List.findSome?_cons,
              hm, hma, htr, hh]
          · intro h' hh'
            exact Option.noConfusion hh'
          · intro _ h' hh'
            exact Option.noConfusion hh'
          · intro _ _ h' hh'
            exact Option.noConfusion hh'
          · intro _ _ _
            simp [hh]

lemma get_fallback_head_heads_congr (r1 r2 : Repo) (opts : List String)
    (h : r1.heads = r2.heads) :
    get_fallback_head r1 opts = get_fallback_head r2 opts := by
  simp only [get_fallback_head, get_local_head, h]

lemma get_fallback_head_isSome (repo : Repo) (opts : List String)
    (hne : repo.heads ≠ []) :
    ∃ fb, get_fallback_head repo opts = some fb := by
  unfold get_fallback_head
  cases hfs : opts.findSome? (fun fallback => get_local_head repo fallback) with
  | some fb => exact ⟨fb, rfl⟩
  | none =>
    cases hh : repo.heads with
    | nil => exact absurd hh hne
    | cons a l => exact ⟨a, by simp [hh]⟩

lemma merge_loop_first_fail_cleanup (mergeOk : Nat → Bool) (output_branch fb : Head) :
    ∀ (patch_branches : List (Patch × Head)) (k idx : Nat) (repo : Repo)
      (attempted : List String),
      k < patch_branches.length →
      (∀ j, j < k → mergeOk (idx + j) = true) →
      mergeOk (idx + k) = false →
      get_fallback_head { repo with merging := false } default_fallback_options = some fb →
      fb.name ≠ output_branch.name →
      merge_loop mergeOk true output_branch repo idx patch_branches attempted =
        some (false,
          { repo with
              merging := false, checked_out := some fb.name,
              heads := repo.heads.filter (fun h => h.name != output_branch.name) },
          attempted ++ (patch_branches.take (k + 1)).map (fun pb => pb.2.name)) := by
  intro patch_branches
  induction patch_branches with
  | nil =>
    intro k idx repo attempted hk
    simp at hk
  | cons hd rest ih =>
    intro k idx repo attempted hk hbefore hfail hfb hfbne
    obtain ⟨p, pb⟩ := hd
    cases k with
    | zero =>
      have h0 : mergeOk idx = false := by simpa using hfail
      have hbe : (fb.name == output_branch.name) = false := beq_eq_false_iff_ne.mpr hfbne
      simp only [merge_loop, h0, Bool.false_eq_true, if_false, if_true, hfb, hbe]
      simp
    | succ k' =>
      have h1 : mergeOk idx = true := by
        have := hbefore 0 (Nat.succ_pos k')
        simpa using this
      simp only [merge_loop, h1, if_true]
      rw [ih k' (idx + 1) repo (attempted ++ [pb.name])
        (by simpa using Nat.lt_of_succ_lt_succ hk)
        (fun j hj => by
          have := hbefore (j + 1) (Nat.succ_lt_succ hj)
          simpa [Nat.add_assoc, Nat.add_comm 1 j] using this)
        (by
          have : idx + 1 + k' = idx + (k' + 1) := by omega
          rw [this]
          exact hfail)
        hfb hfbne]
      simp

lemma merge_loop_first_fail_no_cleanup (mergeOk : Nat → Bool) (output_branch : Head) :
    ∀ (patch_branches : List (Patch × Head)) (k idx : Nat) (repo : Repo)
      (attempted : List String),
      k < patch_branches.length →
      (∀ j, j < k → mergeOk (idx + j) = true) →
      mergeOk (idx + k) = false →
      merge_loop mergeOk false output_branch repo idx patch_branches attempted =
        some (false, { repo with merging := true },
          attempted ++ (patch_branches.take (k + 1)).map (fun pb => pb.2.name)) := by
  intro patch_branches
  induction patch_branches with
  | nil =>
    intro k idx repo attempted hk
    simp at hk
  | cons hd rest ih =>
    intro k idx repo attempted hk hbefore hfail
    obtain ⟨p, pb⟩ := hd
    cases k with
    | zero =>
      have h0 : mergeOk idx = false := by simpa using hfail
      simp only [merge_loop, h0, Bool.false_eq_true, if_false]
      simp
    | succ k' =>
      have h1 : mergeOk idx = true := by
        have := hbefore 0 (Nat.succ_pos k')
        simpa using this
      simp only [merge_loop, h1, if_true]
      rw [ih k' (idx + 1) repo (attempted ++ [pb.name])
        (by simpa using Nat.lt_of_succ_lt_succ hk)
        (fun j hj => by
          have := hbefore (j + 1) (Nat.succ_lt_succ hj)
          simpa [Nat.add_assoc, Nat.add_comm 1 j] using this)
        (by
          have : idx + 1 + k' = idx + (k' + 1) := by omega
          rw [this]
          exact hfail)]
      simp

/-- C1 amended: when checkout of the output branch succeeds, some merge fails,
clean_up is true and the computed fallback branch differs from the output
branch, merge_patches_into_output aborts the merge (merging is false), checks
out the fallback, forcibly deletes the output branch (no remaining head
carries its name and the checked-out branch is the fallback), attempts no
patches past the failing one, and returns failure. -/
theorem merge_patches_cleanup_rolls_back (checkoutOk : String → Bool)
    (mergeOk : Nat → Bool) (repo : Repo) (output_branch fb : Head)
    (patch_branches : List (Patch × Head)) (k : Nat)
    (hco : checkoutOk output_branch.name = true)
    (hk : k < patch_branches.length)
    (hbefore : ∀ j, j < k → mergeOk j = true)
    (hfail : mergeOk k = false)
    (hfb : get_fallback_head repo default_fallback_options = some fb)
    (hfbne : fb.name ≠ output_branch.name) :
    merge_patches_into_output checkoutOk mergeOk repo output_branch patch_branches true =
      some (false,
        { repo with
            merging := false, checked_out := some fb.name,
            heads := repo.heads.filter (fun h => h.name != output_branch.name) },
        (patch_branches.take (k + 1)).map (fun pb => pb.2.name)) ∧
    ∀ h ∈ repo.heads.filter (fun h => h.name != output_branch.name),
      h.name ≠ output_branch.name := by
  refine ⟨?_, ?_⟩
  · unfold merge_patches_into_output
    rw [hco, if_pos rfl]
    rw [merge_loop_first_fail_cleanup mergeOk output_branch fb patch_branches k 0
      { repo with checked_out := some output_branch.name } [] hk
      (fun j hj => by simpa using hbefore j hj)
      (by simpa using hfail)
      ((get_fallback_head_heads_congr _ repo default_fallback_options rfl).trans hfb)
      hfbne]
    simp
  · intro h hh
    have := List.of_mem_filter hh
    simpa using this

/-- C1 counterexample: when the output branch is itself the computed fallback
(here the repository's only head, named main), the cleanup's forced delete
targets the branch it has just checked out; git refuses to delete the current
branch, so the source raises an uncaught GitCommandError (modelled `none`)
instead of deleting the output branch and returning False as the claim
states. -/
theorem merge_patches_cleanup_fallback_is_output_counterexample :
    get_fallback_head repo_main_only default_fallback_options = some head_main ∧
    merge_patches_into_output (fun _ => true) (fun _ => false) repo_main_only
      head_main [(patch_b1, head_b1)] true = none :=
  ⟨rfl, rfl⟩

/-- C3: when checkout of the output branch succeeds, some merge fails and
clean_up is false, merge_patches_into_output returns failure leaving the merge
in progress, the output branch checked out, every branch intact (heads
unchanged, so the output branch still exists), and no patches past the failing
one attempted. -/
theorem merge_patches_no_cleanup_leaves_dirty (checkoutOk : String → Bool)
    (mergeOk : Nat → Bool) (repo : Repo) (output_branch : Head)
    (patch_branches : List (Patch × Head)) (k : Nat)
    (hco : checkoutOk output_branch.name = true)
    (hmem : output_branch ∈ repo.heads)
    (hk : k < patch_branches.length)
    (hbefore : ∀ j, j < k → mergeOk j = true)
    (hfail : mergeOk k = false) :
    merge_patches_into_output checkoutOk mergeOk repo output_branch patch_branches false =
      some (false,
        { repo with checked_out := some output_branch.name, merging := true },
        (patch_branches.take (k + 1)).map (fun pb => pb.2.name)) ∧
    output_branch ∈
      ({ repo with checked_out := some output_branch.name, merging := true } : Repo).heads := by
  refine ⟨?_, hmem⟩
  unfold merge_patches_into_output
  rw [hco, if_pos rfl]
  rw [merge_loop_first_fail_no_cleanup mergeOk output_branch patch_branches k 0
    { repo with checked_out := some output_branch.name } [] hk
    (fun j hj => by simpa using hbefore j hj)
    (by simpa using hfail)]
  simp

/-- C4: when the initial checkout of the output branch fails,
merge_patches_into_output returns failure with the repository untouched (no
branch deleted, the output branch untouched even with clean_up true) and with
no merge attempted. -/
theorem merge_patches_checkout_failure (checkoutOk : String → Bool)
    (mergeOk : Nat → Bool) (repo : Repo) (output_branch : Head)
    (patch_branches : List (Patch × Head)) (clean_up : Bool)
    (hco : checkoutOk output_branch.name = false) :
    merge_patches_into_output checkoutOk mergeOk repo output_branch patch_branches
      clean_up = some (false, repo, []) := by
  unfold merge_patches_into_output
  rw [hco]
  simp

lemma get_patch_branches_map_fst :
    ∀ (patches : List Patch) (repo repo' : Repo) (pairs : List (Patch × Head)),
      get_patch_branches repo patches = .ok (pairs, repo') →
      pairs.map Prod.fst = patches := by
  intro patches
  induction patches with
  | nil =>
    intro repo repo' pairs h
    simp only [get_patch_branches, Except.ok.injEq, Prod.mk.injEq] at h
    obtain ⟨h1, -⟩ := h
    rw [← h1]
    rfl
  | cons p rest ih =>
    intro repo repo' pairs h
    simp only [get_patch_branches] at h
    cases hl : get_local_head repo p.downstream_branch with
    | some pb =>
      simp only [hl] at h
      cases hrec : get_patch_branches repo rest with
      | error er =>
        simp only [hrec] at h
        exact Except.noConfusion h
      | ok val =>
        obtain ⟨pairs', repo1⟩ := val
        simp only [hrec, Except.ok.injEq, Prod.mk.injEq] at h
        obtain ⟨h1, -⟩ := h
        rw [← h1, List.map_cons, ih repo repo1 pairs' hrec]
    | none =>
      simp only [hl] at h
      cases hr : get_remote_ref repo p.downstream_branch none with
      | error e =>
        simp only [hr] at h
        exact Except.noConfusion h
      | ok val =>
        obtain ⟨opt, repo1⟩ := val
        cases opt with
        | none =>
          simp only [hr] at h
          exact Except.noConfusion h
        | some pb =>
          simp only [hr] at h
          cases hrec : get_patch_branches repo1 rest with
          | error er =>
            simp only [hrec] at h
            exact Except.noConfusion h
          | ok val2 =>
            obtain ⟨pairs', repo2⟩ := val2
            simp only [hrec, Except.ok.injEq, Prod.mk.injEq] at h
            obtain ⟨h1, -⟩ := h
            rw [← h1, List.map_cons, ih repo1 repo2 pairs' hrec]

lemma get_patch_branches_append :
    ∀ (pre post : List Patch) (repo : Repo),
      get_patch_branches repo (pre ++ post) =
        match get_patch_branches repo pre with
        | .error er => .error er
        | .ok (pairs, repo1) =>
          match get_patch_branches repo1 post with
          | .error er => .error er
          | .ok (qs, repo2) => .ok (pairs ++ qs, repo2) := by
  intro pre
  induction pre with
  | nil =>
    intro post repo
    simp only [List.nil_append, get_patch_branches]
    cases hq : get_patch_branches repo post with
    | error er => simp [hq]
    | ok val =>
      obtain ⟨qs, repo2⟩ := val
      simp [hq]
  | cons p pre' ih =>
    intro post repo
    simp only [List.cons_append, get_patch_branches, List.append_eq]
    cases hl : get_local_head repo p.downstream_branch with
    | some pb =>
      simp only [hl]
      rw [ih post repo]
      cases hpre : get_patch_branches repo pre' with
      | error er => simp [hpre]
      | ok val =>
        obtain ⟨pairs, repo1⟩ := val
        simp only [hpre]
        cases hpost : get_patch_branches repo1 post with
        | error er => simp [hpost]
        | ok val2 =>
          obtain ⟨qs, repo2⟩ := val2
          simp [hpost]
    | none =>
      simp only [hl]
      cases hr : get_remote_ref repo p.downstream_branch none with
      | error e => simp [hr]
      | ok val =>
        obtain ⟨opt, repo1⟩ := val
        cases opt with
        | none => simp [hr]
        | some pb =>
          simp only [hr]
          rw [ih post repo1]
          cases hpre : get_patch_branches repo1 pre' with
          | error er => simp [hpre]
          | ok val2 =>
            obtain ⟨pairs, repo2⟩ := val2
            simp only [hpre]
            cases hpost : get_patch_branches repo2 post with
            | error er => simp [hpost]
            | ok val3 =>
              obtain ⟨qs, repo3⟩ := val3
              simp [hpost]

/-- C2 amended: get_patch_branches returns pairs in exactly the input order
whenever it succeeds; and whenever every patch before some patch p resolves
(the prefix succeeds, evolving the repository to repo1) and p's downstream
branch resolves neither locally nor in any remote of repo1, it raises
UnknownBranchError at p, with the message naming both p's branch and p's
title, and appends no pairs for later patches. -/
theorem get_patch_branches_order_and_first_failure
    (repo repo1 : Repo) (patches pre post : List Patch)
    (pairs : List (Patch × Head)) (p : Patch) :
    (get_patch_branches repo patches = .ok (pairs, repo1) →
      pairs.map Prod.fst = patches) ∧
    (get_patch_branches repo pre = .ok (pairs, repo1) →
      get_local_head repo1 p.downstream_branch = none →
      get_remote_ref repo1 p.downstream_branch none = .ok (none, repo1) →
      get_patch_branches repo (pre ++ p :: post) =
        .error (.unknownBranch (unknown_branch_message p), repo1)) := by
  constructor
  · exact get_patch_branches_map_fst patches repo repo1 pairs
  · intro hpre hl hr
    rw [get_patch_branches_append pre (p :: post) repo, hpre]
    simp only [get_patch_branches, hl, hr]

/-- C2 counterexample: in a repository where the first patch's branch is
exposed ambiguously by two remotes and the second patch's branch resolves
neither locally nor in any remote, get_patch_branches raises
MultipleRemoteReferencesError, not UnknownBranchError naming the unresolvable
patch as the claim states. -/
theorem get_patch_branches_ambiguous_counterexample :
    get_local_head repo_two_remotes "nope" = none ∧
    get_remote_ref repo_two_remotes "nope" none = .ok (none, repo_two_remotes) ∧
    get_patch_branches repo_two_remotes [patch_ambiguous, patch_unresolvable] =
      .error (.multipleRemoteReferences
          (multiple_remote_references_message "dup"
            (remoteRefsMatching [remote_r1, remote_r2] "dup")),
        repo_two_remotes) ∧
    ¬ ∃ msg repo',
      get_patch_branches repo_two_remotes [patch_ambiguous, patch_unresolvable] =
        .error (.unknownBranch msg, repo') := by
  have hgpb : get_patch_branches repo_two_remotes [patch_ambiguous, patch_unresolvable] =
      .error (.multipleRemoteReferences
          (multiple_remote_references_message "dup"
            (remoteRefsMatching [remote_r1, remote_r2] "dup")),
        repo_two_remotes) := rfl
  refine ⟨rfl, rfl, hgpb, ?_⟩
  rintro ⟨msg, repo', h⟩
  rw [hgpb] at h
  simp at h

lemma get_remote_ref_ok_some (repo : Repo) (ref_name : String) (h : Head) (repo1 : Repo)
    (hk : get_remote_ref repo ref_name none = .ok (some h, repo1)) :
    repo1 = { repo with heads := repo.heads ++ [h] } ∧ h.name = ref_name ∧
      h.tracking.isSome = true := by
  unfold get_remote_ref at hk
  by_cases hemp : repo.remotes.isEmpty = true
  · rw [if_pos hemp] at hk
    simp at hk
  · rw [if_neg hemp] at hk
    by_cases hlen : (remoteRefsMatching repo.remotes ref_name).length > 1
    · simp [hlen] at hk
    · simp only [hlen, if_false] at hk
      cases hm : remoteRefsMatching repo.remotes ref_name with
      | nil => simp [hm] at hk
      | cons fr rest =>
        simp only [hm, Except.ok.injEq, Prod.mk.injEq, Option.some.injEq] at hk
        obtain ⟨hh, hrepo⟩ := hk
        rw [← hrepo, ← hh]
        exact ⟨rfl, rfl, rfl⟩

lemma get_patch_branches_heads_extend :
    ∀ (patches : List Patch) (repo : Repo),
      (∀ pairs repo', get_patch_branches repo patches = .ok (pairs, repo') →
        ∃ extra, repo'.heads = repo.heads ++ extra ∧
          ∀ h ∈ extra, h.tracking.isSome = true ∧
            ∃ p ∈ patches, h.name = p.downstream_branch) ∧
      (∀ e repo', get_patch_branches repo patches = .error (e, repo') →
        ∃ extra, repo'.heads = repo.heads ++ extra ∧
          ∀ h ∈ extra, h.tracking.isSome = true ∧
            ∃ p ∈ patches, h.name = p.downstream_branch) := by
  intro patches
  induction patches with
  | nil =>
    intro repo
    constructor
    · intro pairs repo' h
      simp only [get_patch_branches, Except.ok.injEq, Prod.mk.injEq] at h
      obtain ⟨-, h2⟩ := h
      exact ⟨[], by simp [← h2], by simp⟩
    · intro e repo' h
      simp only [get_patch_branches] at h
      exact Except.noConfusion h
  | cons p rest ih =>
    intro repo
    constructor
    · intro pairs repo' h
      simp only [get_patch_branches] at h
      cases hl : get_local_head repo p.downstream_branch with
      | some pb =>
        simp only [hl] at h
        cases hrec : get_patch_branches repo rest with
        | error er =>
          simp only [hrec] at h
          exact Except.noConfusion h
        | ok val =>
          obtain ⟨pairs', repo1⟩ := val
          simp only [hrec, Except.ok.injEq, Prod.mk.injEq] at h
          obtain ⟨-, h2⟩ := h
          obtain ⟨extra, he, hprop⟩ := (ih repo).1 pairs' repo1 hrec
          refine ⟨extra, by rw [← h2]; exact he, ?_⟩
          intro hd hhd
          obtain ⟨ht, q, hq, hn⟩ := hprop hd hhd
          exact ⟨ht, q, List.mem_cons_of_mem p hq, hn⟩
      | none =>
        simp only [hl] at h
        cases hr : get_remote_ref repo p.downstream_branch none with
        | error e' =>
          simp only [hr] at h
          exact Except.noConfusion h
        | ok val =>
          obtain ⟨opt, repo1⟩ := val
          cases opt with
          | none =>
            simp only [hr] at h
            exact Except.noConfusion h
          | some pb =>
            simp only [hr] at h
            obtain ⟨hrepo1, hname, htrack⟩ :=
              get_remote_ref_ok_some repo p.downstream_branch pb repo1 hr
            cases hrec : get_patch_branches repo1 rest with
            | error er =>
              simp only [hrec] at h
              exact Except.noConfusion h
            | ok val2 =>
              obtain ⟨pairs', repo2⟩ := val2
              simp only [hrec, Except.ok.injEq, Prod.mk.injEq] at h
              obtain ⟨-, h2⟩ := h
              obtain ⟨extra, he, hprop⟩ := (ih repo1).1 pairs' repo2 hrec
              refine ⟨pb :: extra, ?_, ?_⟩
              · rw [← h2, he, hrepo1]
                simp
              · intro hd hhd
                rcases List.mem_cons.mp hhd with rfl | hhd'
                · exact ⟨htrack, p, List.mem_cons_self p rest, hname⟩
                · obtain ⟨ht, q, hq, hn⟩ := hprop hd hhd'
                  exact ⟨ht, q, List.mem_cons_of_mem p hq, hn⟩
    · intro e repo' h
      simp only [get_patch_branches] at h
      cases hl : get_local_head repo p.downstream_branch with
      | some pb =>
        simp only [hl] at h
        cases hrec : get_patch_branches repo rest with
        | error er =>
          obtain ⟨er1, er2⟩ := er
          simp only [hrec, Except.error.injEq, Prod.mk.injEq] at h
          obtain ⟨-, h2⟩ := h
          obtain ⟨extra, he, hprop⟩ := (ih repo).2 er1 er2 hrec
          refine ⟨extra, by rw [← h2]; exact he, ?_⟩
          intro hd hhd
          obtain ⟨ht, q, hq, hn⟩ := hprop hd hhd
          exact ⟨ht, q, List.mem_cons_of_mem p hq, hn⟩
        | ok val =>
          obtain ⟨pairs', repo1⟩ := val
          simp only [hrec] at h
          exact Except.noConfusion h
      | none =>
        simp only [hl] at h
        cases hr : get_remote_ref repo p.downstream_branch none with
        | error e' =>
          simp only [hr, Except.error.injEq, Prod.mk.injEq] at h
          obtain ⟨-, h2⟩ := h
          exact ⟨[], by simp [← h2], by simp⟩
        | ok val =>
          obtain ⟨opt, repo1⟩ := val
          cases opt with
          | none =>
            simp only [hr, Except.error.injEq, Prod.mk.injEq] at h
            obtain ⟨-, h2⟩ := h
            exact ⟨[], by simp [← h2], by simp⟩
          | some pb =>
            simp only [hr] at h
            obtain ⟨hrepo1, hname, htrack⟩ :=
              get_remote_ref_ok_some repo p.downstream_branch pb repo1 hr
            cases hrec : get_patch_branches repo1 rest with
            | error er =>
              obtain ⟨er1, er2⟩ := er
              simp only [hrec, Except.error.injEq, Prod.mk.injEq] at h
              obtain ⟨-, h2⟩ := h
              obtain ⟨extra, he, hprop⟩ := (ih repo1).2 er1 er2 hrec
              refine ⟨pb :: extra, ?_, ?_⟩
              · rw [← h2, he, hrepo1]
                simp
              · intro hd hhd
                rcases List.mem_cons.mp hhd with rfl | hhd'
                · exact ⟨htrack, p, List.mem_cons_self p rest, hname⟩
                · obtain ⟨ht, q, hq, hn⟩ := hprop hd hhd'
                  exact ⟨ht, q, List.mem_cons_of_mem p hq, hn⟩
            | ok val2 =>
              obtain ⟨pairs', repo2⟩ := val2
              simp only [hrec] at h
              exact Except.noConfusion h

/-- C9 amended: when the resolution-and-creation phase of a run raises any
error before merging begins, the only change to the repository's local
branches is the addition of tracking branches that get_remote_ref materialized
for patches resolved from remotes before the error; in particular a failing
create_output_branch itself creates no branch. -/
theorem merge_init_resolution_frame (repo : Repo) (patches : List Patch)
    (base output : String) (e : MudPatchError) (repo' : Repo)
    (h : merge_init_resolution_phase repo patches base output = .error (e, repo')) :
    ∃ extra, repo'.heads = repo.heads ++ extra ∧
      ∀ hd ∈ extra, hd.tracking.isSome = true ∧
        ∃ p ∈ patches, hd.name = p.downstream_branch := by
  unfold merge_init_resolution_phase at h
  cases hg : get_patch_branches repo patches with
  | error er =>
    obtain ⟨er1, er2⟩ := er
    simp only [hg, Except.error.injEq, Prod.mk.injEq] at h
    obtain ⟨-, h2⟩ := h
    obtain ⟨extra, he, hp⟩ := (get_patch_branches_heads_extend patches repo).2 er1 er2 hg
    exact ⟨extra, by rw [← h2]; exact he, hp⟩
  | ok val =>
    obtain ⟨pairs, repo1⟩ := val
    simp only [hg] at h
    cases hc : create_output_branch repo1 base output with
    | error e1 =>
      simp only [hc, Except.error.injEq, Prod.mk.injEq] at h
      obtain ⟨-, h2⟩ := h
      obtain ⟨extra, he, hp⟩ := (get_patch_branches_heads_extend patches repo).1 pairs repo1 hg
      exact ⟨extra, by rw [← h2]; exact he, hp⟩
    | ok v =>
      simp only [hc] at h
      exact Except.noConfusion h

/-- C9 counterexample: a run in which the first patch resolves from a remote
(materializing a tracking branch) and the second patch is unresolvable raises
UnknownBranchError with the set of local branches already changed, so the
branch set is not unchanged as the claim states. -/
theorem merge_init_resolution_counterexample :
    merge_init_resolution_phase repo_with_origin [patch_p1, patch_unresolvable]
      "main" "out" =
      .error (.unknownBranch (unknown_branch_message patch_unresolvable),
        { repo_with_origin with
            heads := repo_with_origin.heads ++
              [create_tracking_head "p1" { name := "origin/p1", commit := 7 }] }) ∧
    ({ repo_with_origin with
        heads := repo_with_origin.heads ++
          [create_tracking_head "p1" { name := "origin/p1", commit := 7 }] } : Repo).heads ≠
      repo_with_origin.heads := by
  exact ⟨rfl, by decide⟩

/-- C7 counterexample: on a repository whose branch list is empty the fallback
lookup cannot return a branch; `none` here is the uncaught IndexError that
`repo.heads[0]` raises, so get_fallback_head does not never-raise as claimed. -/
theorem get_fallback_head_empty_repo_raises :
    get_fallback_head repo_no_branches default_fallback_options = none := rfl

/-! ## Witnesses: the theorems applied at concrete inputs -/

/-- Witness for C1 (amended) at a concrete repository with a single failing
merge whose fallback (main) differs from the output branch (out). -/
theorem merge_patches_cleanup_rolls_back_witness :
    merge_patches_into_output (fun _ => true) (fun _ => false) repo_basic head_out
      [(patch_b1, head_b1)] true =
      some (false,
        { repo_basic with
            merging := false, checked_out := some head_main.name,
            heads := repo_basic.heads.filter (fun h => h.name != head_out.name) },
        ([(patch_b1, head_b1)].take (0 + 1)).map (fun pb => pb.2.name)) ∧
    ∀ h ∈ repo_basic.heads.filter (fun h => h.name != head_out.name),
      h.name ≠ head_out.name :=
  merge_patches_cleanup_rolls_back (fun _ => true) (fun _ => false) repo_basic head_out
    head_main [(patch_b1, head_b1)] 0 rfl (by decide)
    (fun j hj => absurd hj (Nat.not_lt_zero j)) rfl rfl (by decide)

/-- Witness for C3 at a concrete repository with a single failing merge. -/
theorem merge_patches_no_cleanup_leaves_dirty_witness :
    merge_patches_into_output (fun _ => true) (fun _ => false) repo_basic head_out
      [(patch_b1, head_b1)] false =
      some (false,
        { repo_basic with checked_out := some head_out.name, merging := true },
        ([(patch_b1, head_b1)].take (0 + 1)).map (fun pb => pb.2.name)) ∧
    head_out ∈
      ({ repo_basic with
          checked_out := some head_out.name, merging := true } : Repo).heads :=
  merge_patches_no_cleanup_leaves_dirty (fun _ => true) (fun _ => false) repo_basic
    head_out [(patch_b1, head_b1)] 0 rfl (by decide) (by decide)
    (fun j hj => absurd hj (Nat.not_lt_zero j)) rfl

/-- Witness for C4 at a concrete repository with a failing checkout. -/
theorem merge_patches_checkout_failure_witness :
    merge_patches_into_output (fun _ => false) (fun _ => false) repo_basic head_out
      [(patch_b1, head_b1)] true = some (false, repo_basic, []) :=
  merge_patches_checkout_failure (fun _ => false) (fun _ => false) repo_basic head_out
    [(patch_b1, head_b1)] true rfl

/-- Witness for C5 at a repository where the name dual is both a local branch
and a local tag: resolution yields the branch. -/
theorem get_local_base_object_branch_precedence_witness :
    get_local_base_object repo_branch_and_tag "dual" = .ok (.branch head_dual) :=
  (get_local_base_object_branch_precedence repo_branch_and_tag "dual").1 head_dual rfl

/-- Witness for C7 (amended) at a repository whose branch list contains main. -/
theorem get_fallback_head_priority_witness :
    ∃ fb, get_fallback_head repo_basic default_fallback_options = some fb ∧
      (∀ h, get_local_head repo_basic "main" = some h → fb = h) ∧
      (get_local_head repo_basic "main" = none →
        ∀ h, get_local_head repo_basic "master" = some h → fb = h) ∧
      (get_local_head repo_basic "main" = none →
        get_local_head repo_basic "master" = none →
        ∀ h, get_local_head repo_basic "trunk" = some h → fb = h) ∧
      (get_local_head repo_basic "main" = none →
        get_local_head repo_basic "master" = none →
        get_local_head repo_basic "trunk" = none →
        repo_basic.heads.head? = some fb) :=
  get_fallback_head_priority repo_basic (by decide)

/-- Witness for C2 (amended) at a repository where the first patch resolves
locally and the second is unresolvable. -/
theorem get_patch_branches_order_and_first_failure_witness :
    ([(patch_b1, head_b1)].map Prod.fst = [patch_b1]) ∧
    get_patch_branches repo_basic ([patch_b1] ++ patch_unresolvable :: []) =
      .error (.unknownBranch (unknown_branch_message patch_unresolvable), repo_basic) := by
  have h := get_patch_branches_order_and_first_failure repo_basic repo_basic
    [patch_b1] [patch_b1] [] [(patch_b1, head_b1)] patch_unresolvable
  exact ⟨h.1 rfl, h.2 rfl rfl rfl⟩

/-- Witness for C9 (amended) at a run that fails with no remote resolutions:
the failed run created no branch at all. -/
theorem merge_init_resolution_frame_witness :
    ∃ extra, repo_basic.heads = repo_basic.heads ++ extra ∧
      ∀ hd ∈ extra, hd.tracking.isSome = true ∧
        ∃ p ∈ [patch_unresolvable], hd.name = p.downstream_branch :=
  merge_init_resolution_frame repo_basic [patch_unresolvable] "main" "out"
    (.unknownBranch (unknown_branch_message patch_unresolvable)) repo_basic rfl

/-- Witness for C10 at a repository where the base zzz is missing and the
output name out already exists. -/
theorem create_output_branch_resolves_base_first_witness :
    create_output_branch repo_basic "zzz" "out" =
      .error (.unknownReference (base_reference_message repo_basic "zzz")) :=
  create_output_branch_resolves_base_first repo_basic "zzz" "out" rfl rfl rfl
